import Mathlib

/-!
A verification development for the zq query-execution core.

The definitions below are a shallow embedding of the Go sources:
`expr/sort.go` (record comparators and stable sort), `pkg/zson/array.go`
(the `Array` batch), `streamfn/uint64.go` (streaming uint64 functions),
and the reader/combiner error policy of `zqd/ingest` and `cmd/zq`.
Machine integers are modelled as `Nat`/`Int` with explicit wrap-around
where overflow matters; fallible Go code returns `Except`; byte slices
(`zcode.Bytes`) are `List Nat` with entries standing for bytes, and a
nilable slice is an `Option (List Nat)`.
-/

namespace ZQ

/-- `bytes.Compare` from the Go standard library: lexicographic
three-way comparison of byte slices, returning -1, 0 or 1. -/
def byteCompare : List Nat → List Nat → Int
  | [], [] => 0
  | [], _ :: _ => -1
  | _ :: _, [] => 1
  | a :: as, b :: bs =>
    if a < b then -1 else if b < a then 1 else byteCompare as bs

/-- The zng type universe as used by `expr/sort.go`: the primitive types
named in `lookupSorter`'s switch (`zng.IdBool`, `zng.IdString`,
`zng.IdInt16/32/64`, `zng.IdUint16/32/64`, `zng.IdPort`, `zng.IdFloat64`,
`zng.IdTime`, `zng.IdDuration`, `zng.IdIP`), the further primitives that
fall to the default branch (`bstring`, `net`), and the container types
`set` and `vector` recognized by `zng.InnerType`. -/
inductive ZType where
  | bool | int16 | int32 | int64 | uint16 | uint32 | uint64
  | float64 | string | bstring | port | ip | net | time | duration
  | set (inner : ZType)
  | vector (inner : ZType)
deriving DecidableEq, Repr

/-- `zng.InnerType`: the element type of a set or vector, else nil. -/
def innerType : ZType → Option ZType
  | .set t => some t
  | .vector t => some t
  | _ => none

/-- Modelled from the spec: "Each primitive has a stable small integer
ID" (§3) and container types are interned so that identical types share
one identity (§4.A).  The `zng` package itself is not part of the
provided sources; we assign IDs injectively, primitives first and
containers by structure. -/
def typeId : ZType → Nat
  | .bool => 0
  | .int16 => 1
  | .int32 => 2
  | .int64 => 3
  | .uint16 => 4
  | .uint32 => 5
  | .uint64 => 6
  | .float64 => 7
  | .string => 8
  | .bstring => 9
  | .port => 10
  | .ip => 11
  | .net => 12
  | .time => 13
  | .duration => 14
  | .set t => 15 + 2 * typeId t
  | .vector t => 16 + 2 * typeId t

/-- Modelled from the spec: `zng.Type.String()` (the "string form of the
type identity", §4.G sort) renders the zeek-flavored type names; the
`zng` package is not part of the provided sources. -/
def typeString : ZType → String
  | .bool => "bool"
  | .int16 => "int16"
  | .int32 => "int32"
  | .int64 => "int64"
  | .uint16 => "uint16"
  | .uint32 => "uint32"
  | .uint64 => "uint64"
  | .float64 => "double"
  | .string => "string"
  | .bstring => "bstring"
  | .port => "port"
  | .ip => "addr"
  | .net => "subnet"
  | .time => "time"
  | .duration => "interval"
  | .set t => "set[" ++ typeString t ++ "]"
  | .vector t => "vector[" ++ typeString t ++ "]"

/-- The byte form of a type name.  All names produced by `typeString`
are ASCII, so their UTF-8 bytes coincide with the character code
points. -/
def strBytes (s : String) : List Nat := s.data.map Char.toNat

/-- `bytes.Compare([]byte(s), []byte(t))` on two type-name strings. -/
def strCompare (s t : String) : Int := byteCompare (strBytes s) (strBytes t)

/-- Big-endian interpretation of a byte slice as an unsigned number. -/
def beNat (l : List Nat) : Nat := l.foldl (fun acc b => acc * 256 + b) 0

/-- Little-endian interpretation of a byte slice as an unsigned number. -/
def leNat (l : List Nat) : Nat := l.foldr (fun b acc => acc * 256 + b) 0

/-- Modelled from the spec: `zng.DecodeBool`, one of the
"decode-primitive functions ... that fail with decode-error on truncated
or malformed bytes" (§4.B).  A bool payload is a single byte; any other
length is malformed. -/
def decodeBool : List Nat → Except Unit Bool
  | [b] => .ok (b ≠ 0)
  | _ => .error ()

/-- Modelled from the spec: `zng.DecodeInt` for the signed 16/32/64-bit
types (§3); fails on payloads longer than 8 bytes, otherwise reads a
big-endian two's-complement value. -/
def decodeInt (l : List Nat) : Except Unit Int :=
  if l.length > 8 then .error ()
  else
    .ok (match l with
      | [] => 0
      | b :: _ =>
        if b ≥ 128 then (beNat l : Int) - 2 ^ (8 * l.length) else (beNat l : Int))

/-- Modelled from the spec: `zng.DecodeUint` for the unsigned 16/32/64-bit
types (§3); fails on payloads longer than 8 bytes. -/
def decodeUint (l : List Nat) : Except Unit Nat :=
  if l.length > 8 then .error () else .ok (beNat l)

/-- Modelled from the spec: `zng.DecodePort`.  `zng.Port` is a `uint32`
(see the `zng` fragment in the sources), so payloads longer than 4 bytes
are malformed. -/
def decodePort (l : List Nat) : Except Unit Nat :=
  if l.length > 4 then .error () else .ok (beNat l)

/-- Modelled from the spec: `zng.DecodeTime`, "time (64-bit nanoseconds
since epoch)" (§3); same signed decoding as `decodeInt`. -/
def decodeTime (l : List Nat) : Except Unit Int := decodeInt l

/-- Modelled from the spec: `zng.DecodeDuration`, "duration (signed
64-bit nanoseconds)" (§3). -/
def decodeDuration (l : List Nat) : Except Unit Int := decodeInt l

/-- Modelled from the spec: `zng.DecodeFloat64`; a float64 payload is
exactly 8 bytes holding the IEEE-754 bit pattern (little-endian).  The
result is the 64-bit pattern as a `Nat`. -/
def decodeFloat64 (l : List Nat) : Except Unit Nat :=
  if l.length = 8 then .ok (leNat l) else .error ()

/-- Whether a 64-bit IEEE-754 pattern is a NaN: exponent all ones and a
nonzero mantissa. -/
def f64IsNaN (p : Nat) : Bool := (p / 2 ^ 52) % 2 ^ 11 = 2047 && p % 2 ^ 52 ≠ 0

/-- A key that is monotone in the IEEE-754 value order on non-NaN
patterns (and identifies +0 with -0). -/
def f64Key (p : Nat) : Int :=
  if p < 2 ^ 63 then (p : Int) else (2 ^ 63 : Int) - (p : Int)

/-- The Go `<` on two decoded float64 patterns: false whenever either
side is NaN, otherwise IEEE value order. -/
def f64lt (p q : Nat) : Bool := !f64IsNaN p && !f64IsNaN q && f64Key p < f64Key q

/-- Modelled from the spec: `zng.DecodeIP`, "IP address (v4 or v6,
canonicalized to 16-byte form)" (§3); a payload is well-formed iff it is
4 or 16 bytes, and decodes to those bytes. -/
def decodeIP (l : List Nat) : Except Unit (List Nat) :=
  if l.length = 4 ∨ l.length = 16 then .ok l else .error ()

/-- `net.IP.To16` from the Go standard library: a 4-byte address maps to
its 16-byte IPv4-in-IPv6 form, a 16-byte address is unchanged. -/
def ipTo16 (l : List Nat) : List Nat :=
  if l.length = 4 then [0, 0, 0, 0, 0, 0, 0, 0, 0, 0, 255, 255] ++ l else l

/-- Unsigned LEB128 (`uvarint`): little-endian base-128 with a
continuation bit, returning the decoded number and the remaining
bytes. -/
def uvarint : List Nat → Option (Nat × List Nat)
  | [] => none
  | b :: rest =>
    if b < 128 then some (b, rest)
    else
      match uvarint rest with
      | some (n, r) => some ((b - 128) + 128 * n, r)
      | none => none

theorem uvarint_length : ∀ {l : List Nat} {n : Nat} {r : List Nat},
    uvarint l = some (n, r) → r.length < l.length := by
  intro l
  induction l with
  | nil => intro n r h; simp [uvarint] at h
  | cons b rest ih =>
    intro n r h
    simp only [uvarint] at h
    by_cases hb : b < 128
    · rw [if_pos hb] at h
      cases h
      simp
    · rw [if_neg hb] at h
      cases hv : uvarint rest with
      | none => rw [hv] at h; cases h
      | some p =>
        rw [hv] at h
        cases p with
        | mk n' r' =>
          cases h
          exact Nat.lt_trans (ih hv) (by simp)

/-- Modelled from the spec: one step of the container iterator
(`zcode.Iter.Next`): "Containers use a length-prefixed element encoding
that an iterator walks without copying.  A container iterator yields,
per element, (bytes, is-container-flag, error)" (§3).  The element
header is a uvarint tag carrying the container flag in its low bit and
the element length in the remaining bits; a truncated header or body is
an error. -/
def iterNext (l : List Nat) : Except Unit ((List Nat × Bool) × List Nat) :=
  match uvarint l with
  | none => .error ()
  | some (tag, rest) =>
    if tag / 2 ≤ rest.length then
      .ok ((rest.take (tag / 2), tag % 2 = 1), rest.drop (tag / 2))
    else .error ()

theorem iterNext_length {l : List Nat} {x : List Nat × Bool} {r : List Nat}
    (h : iterNext l = .ok (x, r)) : r.length < l.length := by
  unfold iterNext at h
  cases hv : uvarint l with
  | none => rw [hv] at h; cases h
  | some p =>
    cases p with
    | mk tag rest =>
      rw [hv] at h
      dsimp only at h
      split at h
      · cases h
        calc (rest.drop (tag / 2)).length ≤ rest.length := by
              simp [List.length_drop]
          _ < l.length := uvarint_length hv
      · cases h

/-- The comparison loop for container values in `lookupSorter`
(`expr/sort.go` lines 130-157): walk both iterators in lockstep; a
shorter container compares less; an element that is itself a container,
or an iterator error, decides the comparison (-1 if on the left, 1 if on
the right); otherwise the element comparison decides unless it ties. -/
def containerLoop (cmp : List Nat → List Nat → Int) (a b : List Nat) : Int :=
  if a.isEmpty then (if b.isEmpty then 0 else -1)
  else if b.isEmpty then 1
  else
    match ha : iterNext a with
    | .error _ => -1
    | .ok ((va, ca), a') =>
      if ca then -1
      else
        match iterNext b with
        | .error _ => 1
        | .ok ((vb, cb), b') =>
          if cb then 1
          else if cmp va vb ≠ 0 then cmp va vb
          else containerLoop cmp a' b'
termination_by a.length
decreasing_by exact iterNext_length ha

/-- `lookupSorter` from `expr/sort.go`: the per-type comparison function
on raw byte payloads.  Container types (recognized via `innerType`)
compare element-wise; the listed primitive IDs decode and compare
values, with a failed decode on the left deciding -1 and on the right 1;
every other type falls to the default branch, raw `bytes.Compare`. -/
def lookupSorter : ZType → List Nat → List Nat → Int
  | .set t => containerLoop (lookupSorter t)
  | .vector t => containerLoop (lookupSorter t)
  | .bool => fun a b =>
    match decodeBool a with
    | .error _ => -1
    | .ok va =>
      match decodeBool b with
      | .error _ => 1
      | .ok vb => if va = vb then 0 else if va then 1 else -1
  | .string => fun a b => byteCompare a b
  | .int16 | .int32 | .int64 => fun a b =>
    match decodeInt a with
    | .error _ => -1
    | .ok va =>
      match decodeInt b with
      | .error _ => 1
      | .ok vb => if va < vb then -1 else if va > vb then 1 else 0
  | .uint16 | .uint32 | .uint64 => fun a b =>
    match decodeUint a with
    | .error _ => -1
    | .ok va =>
      match decodeUint b with
      | .error _ => 1
      | .ok vb => if va < vb then -1 else if va > vb then 1 else 0
  | .port => fun a b =>
    match decodePort a with
    | .error _ => -1
    | .ok va =>
      match decodePort b with
      | .error _ => 1
      | .ok vb => if va < vb then -1 else if va > vb then 1 else 0
  | .float64 => fun a b =>
    match decodeFloat64 a with
    | .error _ => -1
    | .ok va =>
      match decodeFloat64 b with
      | .error _ => 1
      | .ok vb => if f64lt va vb then -1 else if f64lt vb va then 1 else 0
  | .time => fun a b =>
    match decodeTime a with
    | .error _ => -1
    | .ok va =>
      match decodeTime b with
      | .error _ => 1
      | .ok vb => if va < vb then -1 else if va > vb then 1 else 0
  | .duration => fun a b =>
    match decodeDuration a with
    | .error _ => -1
    | .ok va =>
      match decodeDuration b with
      | .error _ => 1
      | .ok vb => if va < vb then -1 else if va > vb then 1 else 0
  | .ip => fun a b =>
    match decodeIP a with
    | .error _ => -1
    | .ok va =>
      match decodeIP b with
      | .error _ => 1
      | .ok vb => byteCompare (ipTo16 va) (ipTo16 vb)
  | .bstring | .net => fun a b => byteCompare a b

/-- `zng.Value`: a type (a nilable interface in Go) and a nilable byte
payload. -/
structure Value where
  type : Option ZType
  bytes : Option (List Nat)
deriving DecidableEq, Repr

/-- `isNull` from `expr/sort.go`: a value is null when its type or its
bytes are absent. -/
def isNull (v : Value) : Bool := v.type.isNone || v.bytes.isNone

/-- A record, observed through field resolvers only: a list of named
values. -/
def Record := List (String × Value)
deriving instance DecidableEq for Record

/-- `FieldExprResolver`: a compiled field accessor. -/
def Resolver := Record → Value

/-- The basic resolver: read a top-level field by name; a missing field
yields the null value (nil type, nil bytes). -/
def fieldRead (name : String) : Resolver := fun r =>
  match r.find? (fun p => p.1 = name) with
  | some p => p.2
  | none => ⟨none, none⟩

/-- The comparison loop of the closure returned by `NewSortFn`
(`expr/sort.go` lines 32-80): for each field in order, handle nulls per
`nullsMax`, order values of different type IDs by the byte form of their
type names, otherwise consult the per-type sorter, moving to the next
field on a tie. -/
def recordCompare (nullsMax : Bool) : List Resolver → Record → Record → Int
  | [], _, _ => 0
  | f :: rest, ra, rb =>
    if isNull (f ra) && isNull (f rb) then recordCompare nullsMax rest ra rb
    else if isNull (f ra) then (if nullsMax then 1 else -1)
    else if isNull (f rb) then (if nullsMax then -1 else 1)
    else
      match (f ra).type, (f ra).bytes, (f rb).type, (f rb).bytes with
      | some ta, some ba, some tb, some bb =>
        if typeId ta ≠ typeId tb then strCompare (typeString ta) (typeString tb)
        else if lookupSorter ta ba bb ≠ 0 then lookupSorter ta ba bb
        else recordCompare nullsMax rest ra rb
      | _, _, _, _ => 0  -- unreachable: both values are non-null here

/-- `SortFn`: the comparator type returned by `NewSortFn`. -/
def SortFn := Record → Record → Int

/-- `NewSortFn` from `expr/sort.go` (the memoizing `sorters` map is
behaviorally transparent and omitted). -/
def newSortFn (nullsMax : Bool) (fields : List Resolver) : SortFn :=
  fun ra rb => recordCompare nullsMax fields ra rb

/-- `SortStable` from `expr/sort.go`: `sort.Stable` (Go standard
library) over a `RecordSlice` whose `Less i j` is `sorter(r_i, r_j) < 0`.
`sort.Stable`'s contract is a stable ascending sort, which we model as
insertion sort with the non-strict relation `sorter a b ≤ 0`. -/
def SortStable (records : List Record) (sorter : SortFn) : List Record :=
  records.insertionSort (fun a b => sorter a b ≤ 0)

/-! ### `pkg/zson/array.go`: the `Array` batch -/

/-- `nano.Span`: a time span (start timestamp and duration). -/
structure Span where
  ts : Int
  dur : Int
deriving DecidableEq, Repr

/-- The `Array` batch from `pkg/zson/array.go` (named `ZsonArray` here
because `Array` is taken by Lean): a time span plus a slice of
records. -/
structure ZsonArray where
  span : Span
  records : List Record

/-- `NewArray`: an `Array` holding the passed-in records. -/
def ZsonArray.NewArray (r : List Record) (s : Span) : ZsonArray :=
  { span := s, records := r }

/-- `Array.Ref`: "do nothing... let the GC reclaim it".  A method with
an empty body leaves the batch state unchanged, so it is the identity on
the modelled state. -/
def ZsonArray.Ref (a : ZsonArray) : ZsonArray := a

/-- `Array.Unref`: "do nothing... let the GC reclaim it". -/
def ZsonArray.Unref (a : ZsonArray) : ZsonArray := a

/-- `Array.Length`. -/
def ZsonArray.Length (a : ZsonArray) : Nat := a.records.length

/-- `Array.Records`. -/
def ZsonArray.Records (a : ZsonArray) : List Record := a.records

/-- `Array.Span`. -/
def ZsonArray.Span (a : ZsonArray) : Span := a.span

/-- `Array.Index(k)`: `if k < len(a.records) { return a.records[k] };
return nil`.  `k` is a Go `int`; indexing a slice with a negative index
panics, which the guard does not exclude, so the model returns
`.error ()` (panic) there.  A `nil` record pointer is `none`. -/
def ZsonArray.Index (a : ZsonArray) (k : Int) : Except Unit (Option Record) :=
  if hk : k < (a.records.length : Int) then
    if h0 : 0 ≤ k then
      .ok (some (a.records.get ⟨k.toNat, by omega⟩))
    else .error ()
  else .ok none

/-- A finite sequence of `Ref`/`Unref` calls on a batch. -/
inductive RefOp where
  | ref
  | unref
deriving DecidableEq, Repr

/-- Apply a sequence of `Ref`/`Unref` calls to an `Array`. -/
def applyRefOps : List RefOp → ZsonArray → ZsonArray
  | [], a => a
  | .ref :: rest, a => applyRefOps rest a.Ref
  | .unref :: rest, a => applyRefOps rest a.Unref

/-! ### `streamfn/uint64.go` -/

/-- The `Uint64` stream function from `streamfn/uint64.go`: a state and
an update rule.  The Go `Update` closure mutates `State`; the model
carries the transition `(state, v) ↦ state` explicitly.  Arithmetic is
uint64, i.e. mod `2^64`. -/
structure StreamUint64 where
  State : Nat
  Update : Nat → Nat → Nat

/-- `NewUint64` from `streamfn/uint64.go`: "Sum" accumulates mod 2^64
starting at 0, "Min" keeps the smallest value seen starting at
`math.MaxUint64`, "Max" keeps the largest starting at 0; any other op
returns nil (`none`). -/
def NewUint64 (op : String) : Option StreamUint64 :=
  if op = "Sum" then some { State := 0, Update := fun s v => (s + v) % 2 ^ 64 }
  else if op = "Min" then
    some { State := 2 ^ 64 - 1, Update := fun s v => if v < s then v else s }
  else if op = "Max" then
    some { State := 0, Update := fun s v => if v > s then v else s }
  else none

/-- The state after a finite sequence of `Update` calls. -/
def runUpdates (f : StreamUint64) (vs : List Nat) : Nat :=
  vs.foldl f.Update f.State

/-! ### Reader errors in log ingest (`zqd/ingest/log.go`, `cmd/zq/zq.go`)

The open-phase loop over `req.Paths` is in the sources
(`ingestLogs`); `scanner.OpenFile`, `scanner.WarningReader`,
`scanner.NewCombiner` and the driver are repository code outside the
provided sources and are modelled from the spec (§4.K): "On reader
error, if stop-on-error is set, the whole query fails; otherwise the
combiner emits a warning (via a side channel) and drops that reader."
A reader is its sequence of `Read()` results (record or error); ingest
input is a list of paths, each with its open outcome.  The combiner's
merge order (round-robin or ts-ordered) is abstracted to reader order:
the claims here concern which records, warnings and errors a run
produces, not their interleaving. -/

/-- The sequence of results a reader produces, in order. -/
def ReaderEvents := List (Except String Record)

/-- The records a reader delivers before its first error (all of them
if it never fails). -/
def okRecords : ReaderEvents → List Record
  | [] => []
  | .ok rec :: rest => rec :: okRecords rest
  | .error _ :: _ => []

/-- The first read error of a reader, if any. -/
def readError : ReaderEvents → Option String
  | [] => none
  | .ok _ :: rest => readError rest
  | .error e :: _ => some e

/-- The open-phase loop of `ingestLogs` (`zqd/ingest/log.go` lines
90-109): open each path; on an open error, fail immediately if
stop-on-error is set, otherwise record a `"path: err"` warning and drop
the path. -/
def openReaders (stopErr : Bool) :
    List (String × Except String ReaderEvents) →
    Except String (List ReaderEvents × List String)
  | [] => .ok ([], [])
  | (path, .error e) :: rest =>
    if stopErr then .error e
    else
      match openReaders stopErr rest with
      | .error e' => .error e'
      | .ok (rs, ws) => .ok (rs, (path ++ ": " ++ e) :: ws)
  | (_, .ok r) :: rest =>
    match openReaders stopErr rest with
    | .error e' => .error e'
    | .ok (rs, ws) => .ok (r :: rs, ws)

/-- Modelled from the spec: the combiner without `WarningReader`
wrapping (the stop-on-error configuration of `compileLogIngest`): the
merged stream fails with the first reader error it meets, so the whole
query fails with that error. -/
def combinerStrict : List ReaderEvents → Except String (List Record)
  | [] => .ok []
  | r :: rest =>
    match drain r with
    | .error e => .error e
    | .ok xs =>
      match combinerStrict rest with
      | .error e => .error e
      | .ok ys => .ok (xs ++ ys)
where
  /-- Drain a single reader, stopping at its first error. -/
  drain : ReaderEvents → Except String (List Record)
    | [] => .ok []
    | .error e :: _ => .error e
    | .ok rec :: rest =>
      match drain rest with
      | .error e => .error e
      | .ok xs => .ok (rec :: xs)

/-- Modelled from the spec: each reader wrapped in
`scanner.WarningReader` feeding the side warning channel: a read error
becomes a warning, the reader is dropped (ends early), and the merged
query continues over the remaining readers. -/
def combinerWarn : List ReaderEvents → List Record × List String
  | [] => ([], [])
  | r :: rest =>
    let (recs, ws) := combinerWarn rest
    (okRecords r ++ recs,
     match readError r with
     | some e => e :: ws
     | none => ws)

/-- The reader-error behavior of log ingest: open all paths
(`ingestLogs`), then run the query over the combined readers
(`compileLogIngest` / `driver.Run`), collecting delivered records and
side-channel warnings. -/
def ingestLogsModel (stopErr : Bool)
    (inputs : List (String × Except String ReaderEvents)) :
    Except String (List Record × List String) :=
  match openReaders stopErr inputs with
  | .error e => .error e
  | .ok (rs, openWs) =>
    if stopErr then
      match combinerStrict rs with
      | .error e => .error e
      | .ok recs => .ok (recs, openWs)
    else
      let (recs, ws) := combinerWarn rs
      .ok (recs, openWs ++ ws)

/-- The first open error among the inputs, in input order. -/
def firstOpenError : List (String × Except String ReaderEvents) → Option String
  | [] => none
  | (_, .error e) :: _ => some e
  | (_, .ok _) :: rest => firstOpenError rest

/-- The first read error among successfully opened readers, in input
order. -/
def firstReadError : List (String × Except String ReaderEvents) → Option String
  | [] => none
  | (_, .error _) :: rest => firstReadError rest
  | (_, .ok evs) :: rest =>
    match readError evs with
    | some e => some e
    | none => firstReadError rest

/-- The first reader error the run meets: the open phase precedes the
read phase, so open errors (in input order) come first, then read
errors. -/
def specFirstError (inputs : List (String × Except String ReaderEvents)) :
    Option String :=
  match firstOpenError inputs with
  | some e => some e
  | none => firstReadError inputs

/-- The event streams of the readers that open successfully, in input
order. -/
def okEvents : List (String × Except String ReaderEvents) → List ReaderEvents
  | [] => []
  | (_, .error _) :: rest => okEvents rest
  | (_, .ok evs) :: rest => evs :: okEvents rest

/-- The records the query delivers under continue-on-error: for each
reader that opens, everything it produces before its first error. -/
def goodRecords : List (String × Except String ReaderEvents) → List Record
  | [] => []
  | (_, .error _) :: rest => goodRecords rest
  | (_, .ok evs) :: rest => okRecords evs ++ goodRecords rest

/-- The warnings of the open phase: one `"path: err"` per path that
fails to open. -/
def openWarnings : List (String × Except String ReaderEvents) → List String
  | [] => []
  | (p, .error e) :: rest => (p ++ ": " ++ e) :: openWarnings rest
  | (_, .ok _) :: rest => openWarnings rest

/-- The side-channel warnings of the read phase: the first read error of
each reader that fails mid-stream. -/
def readWarnings : List (String × Except String ReaderEvents) → List String
  | [] => []
  | (_, .error _) :: rest => readWarnings rest
  | (_, .ok evs) :: rest =>
    match readError evs with
    | some e => e :: readWarnings rest
    | none => readWarnings rest

/-! ### Predicates about sort-key values -/

/-- A field ties between `ra` and `rb`: the comparison loop of
`NewSortFn` moves past it, either because both values are null or
because both are present with the same type ID and the per-type sorter
returns 0. -/
def fieldTie (f : Resolver) (ra rb : Record) : Prop :=
  (isNull (f ra) = true ∧ isNull (f rb) = true) ∨
  (∃ ta ba tb bb, (f ra).type = some ta ∧ (f ra).bytes = some ba ∧
    (f rb).type = some tb ∧ (f rb).bytes = some bb ∧
    typeId ta = typeId tb ∧ lookupSorter ta ba bb = 0)

/-- All of a record's sort-key values are null. -/
def allNull (fields : List Resolver) (r : Record) : Prop :=
  ∀ f ∈ fields, isNull (f r) = true

/-- Well-formedness of a container payload relative to a well-formedness
predicate for elements: every element parses, is not itself a container,
and is well-formed. -/
def wfContainer (wf : List Nat → Bool) (b : List Nat) : Bool :=
  if b.isEmpty then true
  else
    match hb : iterNext b with
    | .error _ => false
    | .ok ((v, c), b') => !c && wf v && wfContainer wf b'
termination_by b.length
decreasing_by exact iterNext_length hb

/-- A payload is well-formed for its type: its decoder succeeds (types
compared by raw bytes are always well-formed), and for containers every
element parses, is a non-container, and is well-formed for the inner
type. -/
def wellFormed : ZType → List Nat → Bool
  | .set t, b => wfContainer (wellFormed t) b
  | .vector t, b => wfContainer (wellFormed t) b
  | .bool, b => (decodeBool b).isOk
  | .int16, b | .int32, b | .int64, b => (decodeInt b).isOk
  | .uint16, b | .uint32, b | .uint64, b => (decodeUint b).isOk
  | .port, b => (decodePort b).isOk
  | .float64, b => (decodeFloat64 b).isOk
  | .time, b => (decodeTime b).isOk
  | .duration, b => (decodeDuration b).isOk
  | .ip, b => (decodeIP b).isOk
  | .string, _ | .bstring, _ | .net, _ => true

/-- A value is null or carries a well-formed payload for its type. -/
def valueWF (v : Value) : Bool :=
  match v.type, v.bytes with
  | some t, some b => wellFormed t b
  | _, _ => true

/-- The types whose `lookupSorter` branch decodes the payload and can
therefore fail on malformed bytes (everything except the raw-byte
branches and the containers). -/
def isScalarDecoded : ZType → Bool
  | .bool | .int16 | .int32 | .int64 | .uint16 | .uint32 | .uint64
  | .port | .float64 | .time | .duration | .ip => true
  | _ => false

/-- The decoder for a scalar-decoded type fails on this payload. -/
def scalarDecodeFails : ZType → List Nat → Bool
  | .bool, b => !(decodeBool b).isOk
  | .int16, b | .int32, b | .int64, b => !(decodeInt b).isOk
  | .uint16, b | .uint32, b | .uint64, b => !(decodeUint b).isOk
  | .port, b => !(decodePort b).isOk
  | .float64, b => !(decodeFloat64 b).isOk
  | .time, b => !(decodeTime b).isOk
  | .duration, b => !(decodeDuration b).isOk
  | .ip, b => !(decodeIP b).isOk
  | _, _ => false

/-! ### Concrete records and a cyclic comparator

`SortStable` accepts any `SortFn`; the following comparator is a
legitimate argument that is not induced by a transitive ordering. -/

/-- A record with a single int64 field `n` holding one byte. -/
def cexRec (n : Nat) : Record := [("n", ⟨some .int64, some [n]⟩)]

/-- The byte of the `n` field of a `cexRec`-shaped record. -/
def cexTag (r : Record) : Nat :=
  match (fieldRead "n" r).bytes with
  | some [b] => b
  | _ => 99

/-- A comparator that is zero on equal tags and cycles on tags 0, 1, 2:
0 before 1, 1 before 2, 2 before 0. -/
def cexCmp : SortFn := fun a b =>
  if cexTag a = cexTag b then 0
  else if (cexTag a, cexTag b) ∈ ([(0, 1), (1, 2), (2, 0)] : List (Nat × Nat))
  then -1
  else 1

/-! ## Helper lemmas -/

theorem byteCompare_refl : ∀ l : List Nat, byteCompare l l = 0
  | [] => rfl
  | _ :: as => by simp [byteCompare, byteCompare_refl as]

theorem applyRefOps_eq : ∀ (ops : List RefOp) (a : ZsonArray), applyRefOps ops a = a
  | [], _ => rfl
  | .ref :: rest, a => applyRefOps_eq rest a
  | .unref :: rest, a => applyRefOps_eq rest a

section MinFold

/-- The "Min" update rule of `streamfn/uint64.go`. -/
def minUpd (s v : Nat) : Nat := if v < s then v else s

theorem minFold_le_mem : ∀ (vs : List Nat) (s v : Nat), v ∈ vs →
    vs.foldl minUpd s ≤ v := by
  intro vs
  induction vs with
  | nil => intro s v h; cases h
  | cons x xs ih =>
    intro s v h
    rcases List.mem_cons.mp h with rfl | hx
    · have hle : minUpd s v ≤ v := by unfold minUpd; split <;> omega
      calc (v :: xs).foldl minUpd s = xs.foldl minUpd (minUpd s v) := rfl
        _ ≤ minUpd s v := minFold_le_start xs _
        _ ≤ v := hle
    · exact ih _ _ hx
where
  minFold_le_start : ∀ (vs : List Nat) (s : Nat), vs.foldl minUpd s ≤ s := by
    intro vs
    induction vs with
    | nil => intro s; exact Nat.le_refl s
    | cons x xs ih =>
      intro s
      calc (x :: xs).foldl minUpd s = xs.foldl minUpd (minUpd s x) := rfl
        _ ≤ minUpd s x := ih _
        _ ≤ s := by unfold minUpd; split <;> omega

theorem minFold_mem_or : ∀ (vs : List Nat) (s : Nat),
    vs.foldl minUpd s = s ∨ vs.foldl minUpd s ∈ vs := by
  intro vs
  induction vs with
  | nil => intro s; exact Or.inl rfl
  | cons x xs ih =>
    intro s
    have hstep : (x :: xs).foldl minUpd s = xs.foldl minUpd (minUpd s x) := rfl
    rcases ih (minUpd s x) with h | h
    · rw [hstep, h]
      unfold minUpd
      split
      · exact Or.inr (List.mem_cons_self x xs)
      · exact Or.inl rfl
    · exact Or.inr (List.mem_cons_of_mem x (hstep ▸ h))

end MinFold

section IngestLemmas

theorem openReaders_noStop :
    ∀ inputs, openReaders false inputs =
      .ok (okEvents inputs, openWarnings inputs) := by
  intro inputs
  induction inputs with
  | nil => rfl
  | cons x rest ih =>
    obtain ⟨p, res⟩ := x
    cases res with
    | error e => simp [openReaders, okEvents, openWarnings, ih]
    | ok evs => simp [openReaders, okEvents, openWarnings, ih]

theorem drain_ok : ∀ {evs : ReaderEvents}, readError evs = none →
    combinerStrict.drain evs = .ok (okRecords evs) := by
  intro evs
  induction evs with
  | nil => intro; rfl
  | cons ev rest ih =>
    intro h
    cases ev with
    | error e => simp [readError] at h
    | ok rec =>
      have h' : readError rest = none := h
      simp [combinerStrict.drain, okRecords, ih h']

theorem drain_err : ∀ {evs : ReaderEvents} {e : String},
    readError evs = some e → combinerStrict.drain evs = .error e := by
  intro evs
  induction evs with
  | nil => intro e h; simp [readError] at h
  | cons ev rest ih =>
    intro e h
    cases ev with
    | error e' =>
      have : e' = e := by simpa [readError] using h
      simp [combinerStrict.drain, this]
    | ok rec =>
      have h' : readError rest = some e := h
      simp [combinerStrict.drain, ih h']

theorem combinerWarn_eq :
    ∀ inputs, combinerWarn (okEvents inputs) =
      (goodRecords inputs, readWarnings inputs) := by
  intro inputs
  induction inputs with
  | nil => rfl
  | cons x rest ih =>
    obtain ⟨p, res⟩ := x
    cases res with
    | error e => simpa [okEvents, goodRecords, readWarnings] using ih
    | ok evs =>
      cases h : readError evs with
      | none => simp [okEvents, goodRecords, readWarnings, combinerWarn, ih, h]
      | some e => simp [okEvents, goodRecords, readWarnings, combinerWarn, ih, h]

theorem openReaders_stop_err :
    ∀ {inputs} {e : String}, firstOpenError inputs = some e →
      openReaders true inputs = .error e := by
  intro inputs
  induction inputs with
  | nil => intro e h; simp [firstOpenError] at h
  | cons x rest ih =>
    intro e h
    obtain ⟨p, res⟩ := x
    cases res with
    | error e' =>
      have : e' = e := by simpa [firstOpenError] using h
      simp [openReaders, this]
    | ok evs =>
      have h' : firstOpenError rest = some e := h
      simp [openReaders, ih h']

theorem openReaders_stop_ok :
    ∀ {inputs}, firstOpenError inputs = none →
      openReaders true inputs = .ok (okEvents inputs, []) := by
  intro inputs
  induction inputs with
  | nil => intro; rfl
  | cons x rest ih =>
    intro h
    obtain ⟨p, res⟩ := x
    cases res with
    | error e' => simp [firstOpenError] at h
    | ok evs =>
      have h' : firstOpenError rest = none := h
      simp [openReaders, okEvents, ih h']

theorem combinerStrict_eq :
    ∀ inputs, combinerStrict (okEvents inputs) =
      (match firstReadError inputs with
       | some e => .error e
       | none => .ok (goodRecords inputs)) := by
  intro inputs
  induction inputs with
  | nil => rfl
  | cons x rest ih =>
    obtain ⟨p, res⟩ := x
    cases res with
    | error e => simpa [okEvents, firstReadError, goodRecords] using ih
    | ok evs =>
      cases h : readError evs with
      | some e =>
        simp [okEvents, firstReadError, goodRecords, combinerStrict, h,
          drain_err h]
      | none =>
        cases h2 : firstReadError rest with
        | some e =>
          simp only [okEvents, firstReadError, goodRecords, combinerStrict,
            drain_ok h, h, h2]
          rw [ih, h2]
        | none =>
          simp only [okEvents, firstReadError, goodRecords, combinerStrict,
            drain_ok h, h, h2]
          rw [ih, h2]

theorem okRecords_sublist_goodRecords :
    ∀ {inputs p evs}, (p, Except.ok evs) ∈ inputs →
      List.Sublist (okRecords evs) (goodRecords inputs) := by
  intro inputs
  induction inputs with
  | nil => intro p evs h; cases h
  | cons x rest ih =>
    intro p evs h
    rcases List.mem_cons.mp h with heq | hmem
    · cases heq
      simpa [goodRecords] using List.sublist_append_left _ _
    · obtain ⟨q, res⟩ := x
      cases res with
      | error e => simpa [goodRecords] using ih hmem
      | ok evs' =>
        simp only [goodRecords]
        exact (ih hmem).trans (List.sublist_append_right _ _)

end IngestLemmas

section SortLemmas

theorem isNull_false_elim {v : Value} (h : isNull v = false) :
    ∃ t b, v.type = some t ∧ v.bytes = some b := by
  obtain ⟨ot, ob⟩ := v
  cases ot with
  | none => simp [isNull] at h
  | some t =>
    cases ob with
    | none => simp [isNull] at h
    | some b => exact ⟨t, b, rfl, rfl⟩

theorem rc_step_bothNull {nm : Bool} {f : Resolver} {rest : List Resolver}
    {ra rb : Record} (ha : isNull (f ra) = true) (hb : isNull (f rb) = true) :
    recordCompare nm (f :: rest) ra rb = recordCompare nm rest ra rb := by
  simp [recordCompare, ha, hb]

theorem rc_step_nullLeft {nm : Bool} {f : Resolver} {rest : List Resolver}
    {ra rb : Record} (ha : isNull (f ra) = true) (hb : isNull (f rb) = false) :
    recordCompare nm (f :: rest) ra rb = if nm then 1 else -1 := by
  simp [recordCompare, ha, hb]

theorem rc_step_nullRight {nm : Bool} {f : Resolver} {rest : List Resolver}
    {ra rb : Record} (ha : isNull (f ra) = false) (hb : isNull (f rb) = true) :
    recordCompare nm (f :: rest) ra rb = if nm then -1 else 1 := by
  simp [recordCompare, ha, hb]

theorem rc_step_present {nm : Bool} {f : Resolver} {rest : List Resolver}
    {ra rb : Record} {ta tb : ZType} {ba bb : List Nat}
    (hta : (f ra).type = some ta) (hba : (f ra).bytes = some ba)
    (htb : (f rb).type = some tb) (hbb : (f rb).bytes = some bb) :
    recordCompare nm (f :: rest) ra rb =
      (if typeId ta ≠ typeId tb then strCompare (typeString ta) (typeString tb)
       else if lookupSorter ta ba bb ≠ 0 then lookupSorter ta ba bb
       else recordCompare nm rest ra rb) := by
  have ha : isNull (f ra) = false := by simp [isNull, hta, hba]
  have hb : isNull (f rb) = false := by simp [isNull, htb, hbb]
  simp only [recordCompare, ha, hb, hta, hba, htb, hbb, Bool.false_and,
    Bool.false_eq_true, if_false]

theorem rc_step_tie {nm : Bool} {f : Resolver} {rest : List Resolver}
    {ra rb : Record} (h : fieldTie f ra rb) :
    recordCompare nm (f :: rest) ra rb = recordCompare nm rest ra rb := by
  rcases h with ⟨h1, h2⟩ | ⟨ta, ba, tb, bb, hta, hba, htb, hbb, hid, hcmp⟩
  · exact rc_step_bothNull h1 h2
  · rw [rc_step_present hta hba htb hbb]
    simp [hid, hcmp]

theorem rc_ties_append {nm : Bool} {ra rb : Record} :
    ∀ {pre rest : List Resolver}, (∀ g ∈ pre, fieldTie g ra rb) →
      recordCompare nm (pre ++ rest) ra rb = recordCompare nm rest ra rb := by
  intro pre
  induction pre with
  | nil => intro rest _; rfl
  | cons g pre ih =>
    intro rest h
    have hg : fieldTie g ra rb := h g (List.mem_cons_self g pre)
    have h' : ∀ g' ∈ pre, fieldTie g' ra rb :=
      fun g' hm => h g' (List.mem_cons_of_mem g hm)
    rw [List.cons_append, rc_step_tie hg, ih h']

theorem allNull_cons {f : Resolver} {fields : List Resolver} {r : Record}
    (h : allNull (f :: fields) r) :
    isNull (f r) = true ∧ allNull fields r :=
  ⟨h f (List.mem_cons_self f fields),
   fun g hg => h g (List.mem_cons_of_mem f hg)⟩

theorem rc_allNull_right_le :
    ∀ {fields : List Resolver} {r x : Record}, allNull fields r →
      recordCompare true fields x r ≤ 0 := by
  intro fields
  induction fields with
  | nil => intro r x _; simp [recordCompare]
  | cons f rest ih =>
    intro r x h
    obtain ⟨hf, htail⟩ := allNull_cons h
    cases hx : isNull (f x) with
    | true => rw [rc_step_bothNull hx hf]; exact ih htail
    | false => rw [rc_step_nullRight hx hf]; simp

theorem rc_allNull_left_ge :
    ∀ {fields : List Resolver} {r x : Record}, allNull fields r →
      0 ≤ recordCompare true fields r x := by
  intro fields
  induction fields with
  | nil => intro r x _; simp [recordCompare]
  | cons f rest ih =>
    intro r x h
    obtain ⟨hf, htail⟩ := allNull_cons h
    cases hx : isNull (f x) with
    | true => rw [rc_step_bothNull hf hx]; exact ih htail
    | false => rw [rc_step_nullLeft hf hx]; simp

theorem rc_allNull_left_zero :
    ∀ {fields : List Resolver} {x y : Record}, allNull fields x →
      recordCompare true fields x y = 0 → allNull fields y := by
  intro fields
  induction fields with
  | nil => intro x y _ _ g hg; cases hg
  | cons f rest ih =>
    intro x y h hz
    obtain ⟨hf, htail⟩ := allNull_cons h
    cases hy : isNull (f y) with
    | true =>
      rw [rc_step_bothNull hf hy] at hz
      intro g hg
      rcases List.mem_cons.mp hg with rfl | hm
      · exact hy
      · exact ih htail hz g hm
    | false =>
      rw [rc_step_nullLeft hf hy] at hz
      simp at hz

theorem rc_allNull_left_le_false :
    ∀ {fields : List Resolver} {r x : Record}, allNull fields r →
      recordCompare false fields r x ≤ 0 := by
  intro fields
  induction fields with
  | nil => intro r x _; simp [recordCompare]
  | cons f rest ih =>
    intro r x h
    obtain ⟨hf, htail⟩ := allNull_cons h
    cases hx : isNull (f x) with
    | true => rw [rc_step_bothNull hf hx]; exact ih htail
    | false => rw [rc_step_nullLeft hf hx]; simp

theorem rc_allNull_right_ge_false :
    ∀ {fields : List Resolver} {r x : Record}, allNull fields r →
      0 ≤ recordCompare false fields x r := by
  intro fields
  induction fields with
  | nil => intro r x _; simp [recordCompare]
  | cons f rest ih =>
    intro r x h
    obtain ⟨hf, htail⟩ := allNull_cons h
    cases hx : isNull (f x) with
    | true => rw [rc_step_bothNull hx hf]; exact ih htail
    | false => rw [rc_step_nullRight hx hf]; simp

theorem rc_allNull_right_zero_false :
    ∀ {fields : List Resolver} {x y : Record}, allNull fields y →
      recordCompare false fields x y = 0 → allNull fields x := by
  intro fields
  induction fields with
  | nil => intro x y _ _ g hg; cases hg
  | cons f rest ih =>
    intro x y h hz
    obtain ⟨hf, htail⟩ := allNull_cons h
    cases hx : isNull (f x) with
    | true =>
      rw [rc_step_bothNull hx hf] at hz
      intro g hg
      rcases List.mem_cons.mp hg with rfl | hm
      · exact hx
      · exact ih htail hz g hm
    | false =>
      rw [rc_step_nullRight hx hf] at hz
      simp at hz

/-- Inserting an element into a `P`-pairwise list keeps it `P`-pairwise,
provided `P` transports along itself and relates the new element to the
rest according to the insertion relation `r`. -/
theorem pairwise_orderedInsert_of {α : Type} (r : α → α → Prop)
    [DecidableRel r] (P : α → α → Prop)
    (htrans : ∀ {a b c : α}, P a b → P b c → P a c)
    (h1 : ∀ x y : α, ¬ r x y → P y x)
    (h2 : ∀ x y : α, r x y → P x y) (x : α) :
    ∀ L : List α, L.Pairwise P → (L.orderedInsert r x).Pairwise P := by
  intro L
  induction L with
  | nil => intro; simp
  | cons b l ih =>
    intro hP
    obtain ⟨hb, hl⟩ := List.pairwise_cons.mp hP
    by_cases hr : r x b
    · rw [List.orderedInsert, if_pos hr]
      refine List.pairwise_cons.mpr ⟨?_, hP⟩
      intro z hz
      rcases List.mem_cons.mp hz with rfl | hm
      · exact h2 x z hr
      · exact htrans (h2 x b hr) (hb z hm)
    · rw [List.orderedInsert, if_neg hr]
      refine List.pairwise_cons.mpr ⟨?_, ih hl⟩
      intro z hz
      rcases (List.mem_orderedInsert r).mp hz with rfl | hm
      · exact h1 z b hr
      · exact hb z hm

/-- The invariant version for a whole insertion sort. -/
theorem pairwise_insertionSort_of {α : Type} (r : α → α → Prop)
    [DecidableRel r] (P : α → α → Prop)
    (htrans : ∀ {a b c : α}, P a b → P b c → P a c)
    (h1 : ∀ x y : α, ¬ r x y → P y x)
    (h2 : ∀ x y : α, r x y → P x y) :
    ∀ L : List α, (L.insertionSort r).Pairwise P := by
  intro L
  induction L with
  | nil => simp
  | cons a l ih =>
    exact pairwise_orderedInsert_of r P htrans h1 h2 a _ ih

theorem lookupSorter_fail_left {t : ZType} {ba bb : List Nat}
    (hs : isScalarDecoded t = true) (hf : scalarDecodeFails t ba = true) :
    lookupSorter t ba bb = -1 := by
  cases t with
  | bool =>
    cases h : decodeBool ba with
    | ok v => simp [scalarDecodeFails, h, Except.isOk, Except.toBool] at hf
    | error u => simp [lookupSorter, h]
  | int16 =>
    cases h : decodeInt ba with
    | ok v => simp [scalarDecodeFails, h, Except.isOk, Except.toBool] at hf
    | error u => simp [lookupSorter, h]
  | int32 =>
    cases h : decodeInt ba with
    | ok v => simp [scalarDecodeFails, h, Except.isOk, Except.toBool] at hf
    | error u => simp [lookupSorter, h]
  | int64 =>
    cases h : decodeInt ba with
    | ok v => simp [scalarDecodeFails, h, Except.isOk, Except.toBool] at hf
    | error u => simp [lookupSorter, h]
  | uint16 =>
    cases h : decodeUint ba with
    | ok v => simp [scalarDecodeFails, h, Except.isOk, Except.toBool] at hf
    | error u => simp [lookupSorter, h]
  | uint32 =>
    cases h : decodeUint ba with
    | ok v => simp [scalarDecodeFails, h, Except.isOk, Except.toBool] at hf
    | error u => simp [lookupSorter, h]
  | uint64 =>
    cases h : decodeUint ba with
    | ok v => simp [scalarDecodeFails, h, Except.isOk, Except.toBool] at hf
    | error u => simp [lookupSorter, h]
  | port =>
    cases h : decodePort ba with
    | ok v => simp [scalarDecodeFails, h, Except.isOk, Except.toBool] at hf
    | error u => simp [lookupSorter, h]
  | float64 =>
    cases h : decodeFloat64 ba with
    | ok v => simp [scalarDecodeFails, h, Except.isOk, Except.toBool] at hf
    | error u => simp [lookupSorter, h]
  | time =>
    cases h : decodeTime ba with
    | ok v => simp [scalarDecodeFails, h, Except.isOk, Except.toBool] at hf
    | error u => simp [lookupSorter, h]
  | duration =>
    cases h : decodeDuration ba with
    | ok v => simp [scalarDecodeFails, h, Except.isOk, Except.toBool] at hf
    | error u => simp [lookupSorter, h]
  | ip =>
    cases h : decodeIP ba with
    | ok v => simp [scalarDecodeFails, h, Except.isOk, Except.toBool] at hf
    | error u => simp [lookupSorter, h]
  | string => simp [isScalarDecoded] at hs
  | bstring => simp [isScalarDecoded] at hs
  | net => simp [isScalarDecoded] at hs
  | set t => simp [isScalarDecoded] at hs
  | vector t => simp [isScalarDecoded] at hs

theorem lookupSorter_fail_right {t : ZType} {ba bb : List Nat}
    (hs : isScalarDecoded t = true) (hok : scalarDecodeFails t ba = false)
    (hf : scalarDecodeFails t bb = true) :
    lookupSorter t ba bb = 1 := by
  cases t with
  | bool =>
    cases ha : decodeBool ba with
    | error u => simp [scalarDecodeFails, ha, Except.isOk, Except.toBool] at hok
    | ok va =>
      cases hb : decodeBool bb with
      | ok vb => simp [scalarDecodeFails, hb, Except.isOk, Except.toBool] at hf
      | error u => simp [lookupSorter, ha, hb]
  | int16 =>
    cases ha : decodeInt ba with
    | error u => simp [scalarDecodeFails, ha, Except.isOk, Except.toBool] at hok
    | ok va =>
      cases hb : decodeInt bb with
      | ok vb => simp [scalarDecodeFails, hb, Except.isOk, Except.toBool] at hf
      | error u => simp [lookupSorter, ha, hb]
  | int32 =>
    cases ha : decodeInt ba with
    | error u => simp [scalarDecodeFails, ha, Except.isOk, Except.toBool] at hok
    | ok va =>
      cases hb : decodeInt bb with
      | ok vb => simp [scalarDecodeFails, hb, Except.isOk, Except.toBool] at hf
      | error u => simp [lookupSorter, ha, hb]
  | int64 =>
    cases ha : decodeInt ba with
    | error u => simp [scalarDecodeFails, ha, Except.isOk, Except.toBool] at hok
    | ok va =>
      cases hb : decodeInt bb with
      | ok vb => simp [scalarDecodeFails, hb, Except.isOk, Except.toBool] at hf
      | error u => simp [lookupSorter, ha, hb]
  | uint16 =>
    cases ha : decodeUint ba with
    | error u => simp [scalarDecodeFails, ha, Except.isOk, Except.toBool] at hok
    | ok va =>
      cases hb : decodeUint bb with
      | ok vb => simp [scalarDecodeFails, hb, Except.isOk, Except.toBool] at hf
      | error u => simp [lookupSorter, ha, hb]
  | uint32 =>
    cases ha : decodeUint ba with
    | error u => simp [scalarDecodeFails, ha, Except.isOk, Except.toBool] at hok
    | ok va =>
      cases hb : decodeUint bb with
      | ok vb => simp [scalarDecodeFails, hb, Except.isOk, Except.toBool] at hf
      | error u => simp [lookupSorter, ha, hb]
  | uint64 =>
    cases ha : decodeUint ba with
    | error u => simp [scalarDecodeFails, ha, Except.isOk, Except.toBool] at hok
    | ok va =>
      cases hb : decodeUint bb with
      | ok vb => simp [scalarDecodeFails, hb, Except.isOk, Except.toBool] at hf
      | error u => simp [lookupSorter, ha, hb]
  | port =>
    cases ha : decodePort ba with
    | error u => simp [scalarDecodeFails, ha, Except.isOk, Except.toBool] at hok
    | ok va =>
      cases hb : decodePort bb with
      | ok vb => simp [scalarDecodeFails, hb, Except.isOk, Except.toBool] at hf
      | error u => simp [lookupSorter, ha, hb]
  | float64 =>
    cases ha : decodeFloat64 ba with
    | error u => simp [scalarDecodeFails, ha, Except.isOk, Except.toBool] at hok
    | ok va =>
      cases hb : decodeFloat64 bb with
      | ok vb => simp [scalarDecodeFails, hb, Except.isOk, Except.toBool] at hf
      | error u => simp [lookupSorter, ha, hb]
  | time =>
    cases ha : decodeTime ba with
    | error u => simp [scalarDecodeFails, ha, Except.isOk, Except.toBool] at hok
    | ok va =>
      cases hb : decodeTime bb with
      | ok vb => simp [scalarDecodeFails, hb, Except.isOk, Except.toBool] at hf
      | error u => simp [lookupSorter, ha, hb]
  | duration =>
    cases ha : decodeDuration ba with
    | error u => simp [scalarDecodeFails, ha, Except.isOk, Except.toBool] at hok
    | ok va =>
      cases hb : decodeDuration bb with
      | ok vb => simp [scalarDecodeFails, hb, Except.isOk, Except.toBool] at hf
      | error u => simp [lookupSorter, ha, hb]
  | ip =>
    cases ha : decodeIP ba with
    | error u => simp [scalarDecodeFails, ha, Except.isOk, Except.toBool] at hok
    | ok va =>
      cases hb : decodeIP bb with
      | ok vb => simp [scalarDecodeFails, hb, Except.isOk, Except.toBool] at hf
      | error u => simp [lookupSorter, ha, hb]
  | string => simp [isScalarDecoded] at hs
  | bstring => simp [isScalarDecoded] at hs
  | net => simp [isScalarDecoded] at hs
  | set t => simp [isScalarDecoded] at hs
  | vector t => simp [isScalarDecoded] at hs

theorem f64lt_irrefl (p : Nat) : f64lt p p = false := by
  simp [f64lt]

theorem containerLoop_refl (cmp : List Nat → List Nat → Int)
    (wf : List Nat → Bool) (hcmp : ∀ v, wf v = true → cmp v v = 0) :
    ∀ b : List Nat, wfContainer wf b = true → containerLoop cmp b b = 0 := by
  have main : ∀ (n : Nat) (b : List Nat), b.length ≤ n →
      wfContainer wf b = true → containerLoop cmp b b = 0 := by
    intro n
    induction n with
    | zero =>
      intro b hlen _
      have hb : b = [] := List.length_eq_zero.mp (Nat.le_zero.mp hlen)
      subst hb
      simp [containerLoop]
    | succ n ih =>
      intro b hlen hwf
      by_cases hb : b.isEmpty
      · simp [containerLoop, hb]
      · unfold wfContainer at hwf
        rw [if_neg (by simpa using hb)] at hwf
        cases hit : iterNext b with
        | error u => rw [hit] at hwf; simp at hwf
        | ok pr =>
          obtain ⟨⟨v, c⟩, b'⟩ := pr
          rw [hit] at hwf
          simp only [Bool.and_eq_true, Bool.not_eq_true'] at hwf
          obtain ⟨⟨hc, hv⟩, hrest⟩ := hwf
          have hlt : b'.length < b.length := iterNext_length hit
          have hle : b'.length ≤ n := by omega
          unfold containerLoop
          rw [if_neg (by simpa using hb), if_neg (by simpa using hb), hit]
          subst hc
          simp only [if_false, Bool.false_eq_true]
          rw [hcmp v hv]
          simp [ih b' hle hrest]
  intro b
  exact main b.length b (Nat.le_refl _)

theorem lookupSorter_refl :
    ∀ (t : ZType) (b : List Nat), wellFormed t b = true →
      lookupSorter t b b = 0 := by
  intro t
  induction t with
  | set t ih =>
    intro b hwf
    exact containerLoop_refl _ _ ih b hwf
  | vector t ih =>
    intro b hwf
    exact containerLoop_refl _ _ ih b hwf
  | bool =>
    intro b hwf
    cases h : decodeBool b with
    | error u => simp [wellFormed, h, Except.isOk, Except.toBool] at hwf
    | ok v => simp [lookupSorter, h]
  | int16 =>
    intro b hwf
    cases h : decodeInt b with
    | error u => simp [wellFormed, h, Except.isOk, Except.toBool] at hwf
    | ok v => simp [lookupSorter, h]
  | int32 =>
    intro b hwf
    cases h : decodeInt b with
    | error u => simp [wellFormed, h, Except.isOk, Except.toBool] at hwf
    | ok v => simp [lookupSorter, h]
  | int64 =>
    intro b hwf
    cases h : decodeInt b with
    | error u => simp [wellFormed, h, Except.isOk, Except.toBool] at hwf
    | ok v => simp [lookupSorter, h]
  | uint16 =>
    intro b hwf
    cases h : decodeUint b with
    | error u => simp [wellFormed, h, Except.isOk, Except.toBool] at hwf
    | ok v => simp [lookupSorter, h]
  | uint32 =>
    intro b hwf
    cases h : decodeUint b with
    | error u => simp [wellFormed, h, Except.isOk, Except.toBool] at hwf
    | ok v => simp [lookupSorter, h]
  | uint64 =>
    intro b hwf
    cases h : decodeUint b with
    | error u => simp [wellFormed, h, Except.isOk, Except.toBool] at hwf
    | ok v => simp [lookupSorter, h]
  | port =>
    intro b hwf
    cases h : decodePort b with
    | error u => simp [wellFormed, h, Except.isOk, Except.toBool] at hwf
    | ok v => simp [lookupSorter, h]
  | float64 =>
    intro b hwf
    cases h : decodeFloat64 b with
    | error u => simp [wellFormed, h, Except.isOk, Except.toBool] at hwf
    | ok v => simp [lookupSorter, h, f64lt_irrefl]
  | time =>
    intro b hwf
    cases h : decodeTime b with
    | error u => simp [wellFormed, h, Except.isOk, Except.toBool] at hwf
    | ok v => simp [lookupSorter, h]
  | duration =>
    intro b hwf
    cases h : decodeDuration b with
    | error u => simp [wellFormed, h, Except.isOk, Except.toBool] at hwf
    | ok v => simp [lookupSorter, h]
  | ip =>
    intro b hwf
    cases h : decodeIP b with
    | error u => simp [wellFormed, h, Except.isOk, Except.toBool] at hwf
    | ok v => simp [lookupSorter, h, byteCompare_refl]
  | string =>
    intro b _
    simp [lookupSorter, byteCompare_refl]
  | bstring =>
    intro b _
    simp [lookupSorter, byteCompare_refl]
  | net =>
    intro b _
    simp [lookupSorter, byteCompare_refl]

end SortLemmas

/-! ## Claim theorems -/

/-- C1: at the first distinguishing sort field (all earlier fields tie),
a record whose value is null (absent type or absent bytes) compares
greater than a non-null record when `nullsMax` is true and less when it
is false; consequently a stably sorted output under `nullsMax=true` ends
with the records whose sort keys are all null (once a record with
all-null keys appears, everything after it has all-null keys), and under
`nullsMax=false` it begins with them. -/
theorem sort_null_policy :
    (∀ (nm : Bool) (pre post : List Resolver) (f : Resolver) (ra rb : Record),
      (∀ g ∈ pre, fieldTie g ra rb) →
      isNull (f ra) = true → isNull (f rb) = false →
      newSortFn nm (pre ++ f :: post) ra rb = if nm then 1 else -1) ∧
    (∀ (nm : Bool) (pre post : List Resolver) (f : Resolver) (ra rb : Record),
      (∀ g ∈ pre, fieldTie g ra rb) →
      isNull (f ra) = false → isNull (f rb) = true →
      newSortFn nm (pre ++ f :: post) ra rb = if nm then -1 else 1) ∧
    (∀ (fields : List Resolver) (l : List Record),
      (SortStable l (newSortFn true fields)).Pairwise
        (fun x y => allNull fields x → allNull fields y)) ∧
    (∀ (fields : List Resolver) (l : List Record),
      (SortStable l (newSortFn false fields)).Pairwise
        (fun x y => allNull fields y → allNull fields x)) := by
  refine ⟨?_, ?_, ?_, ?_⟩
  · intro nm pre post f ra rb hties ha hb
    show recordCompare nm (pre ++ f :: post) ra rb = _
    rw [rc_ties_append hties, rc_step_nullLeft ha hb]
  · intro nm pre post f ra rb hties ha hb
    show recordCompare nm (pre ++ f :: post) ra rb = _
    rw [rc_ties_append hties, rc_step_nullRight ha hb]
  · intro fields l
    apply pairwise_insertionSort_of
    · intro a b c hab hbc ha
      exact hbc (hab ha)
    · intro x y hr hy
      by_contra hx
      exact hr (rc_allNull_right_le hy)
    · intro x y hr hx
      have hge : 0 ≤ recordCompare true fields x y := rc_allNull_left_ge hx
      have hz : recordCompare true fields x y = 0 := le_antisymm hr hge
      exact rc_allNull_left_zero hx hz
  · intro fields l
    apply pairwise_insertionSort_of
    · intro a b c hab hbc ha
      exact hab (hbc ha)
    · intro x y hr hx
      exact absurd (rc_allNull_left_le_false hx) hr
    · intro x y hr hy
      have hge : 0 ≤ recordCompare false fields x y :=
        rc_allNull_right_ge_false hy
      have hz : recordCompare false fields x y = 0 := le_antisymm hr hge
      exact rc_allNull_right_zero_false hy hz

/-- C1 witness: the null policy applied at a concrete pair of
records. -/
theorem sort_null_policy_witness :
    newSortFn true [fieldRead "x"]
      [("x", ⟨some .int64, none⟩)] [("x", ⟨some .int64, some [1]⟩)] = 1 := by
  have h := sort_null_policy.1 true [] [] (fieldRead "x")
    [("x", ⟨some .int64, none⟩)] [("x", ⟨some .int64, some [1]⟩)]
    (by intro g hg; cases hg) (by decide) (by decide)
  simpa using h

/-- C3 counterexample: `SortStable` takes any comparator, and for a
comparator that cycles (0 before 1, 1 before 2, 2 before 0) no output
order is non-decreasing; on `[0, 1, 2]`-tagged records the sorted output
contains a pair in increasing positions that compares greater, refuting
the claim for "every comparator". -/
theorem sortStable_cyclic_cex :
    ¬ (SortStable [cexRec 0, cexRec 1, cexRec 2] cexCmp).Pairwise
        (fun a b => cexCmp a b ≤ 0) := by decide

/-- C3 amended: `SortStable` always permutes its input and always
preserves the input order of records on which the comparator returns 0;
the output is in non-decreasing comparator order provided the
comparator's non-strict relation (`compare ≤ 0`) is total and
transitive (as it is for a consistent ordering; the original claim
asserted this for every comparator). -/
theorem sortStable_sorted_stable :
    (∀ (l : List Record) (c : SortFn), (SortStable l c).Perm l) ∧
    (∀ (l : List Record) (c : SortFn) (a b : Record), c a b = 0 →
      List.Sublist [a, b] l → List.Sublist [a, b] (SortStable l c)) ∧
    (∀ (l : List Record) (c : SortFn),
      (∀ x y, c x y ≤ 0 ∨ c y x ≤ 0) →
      (∀ x y z, c x y ≤ 0 → c y z ≤ 0 → c x z ≤ 0) →
      (SortStable l c).Pairwise (fun a b => c a b ≤ 0)) := by
  refine ⟨?_, ?_, ?_⟩
  · intro l c
    exact List.perm_insertionSort _ l
  · intro l c a b hz hs
    exact List.pair_sublist_insertionSort (by omega) hs
  · intro l c htot htrans
    haveI : IsTotal Record (fun a b => c a b ≤ 0) := ⟨htot⟩
    haveI : IsTrans Record (fun a b => c a b ≤ 0) := ⟨htrans⟩
    exact List.sorted_insertionSort _ l

/-- C3 witness: the amended theorem applied to a concrete list with the
all-ties comparator of an empty sort-field list. -/
theorem sortStable_sorted_stable_witness :
    (SortStable [cexRec 1, cexRec 0] (newSortFn true [])).Perm
      [cexRec 1, cexRec 0] ∧
    List.Sublist [cexRec 1, cexRec 0]
      (SortStable [cexRec 1, cexRec 0] (newSortFn true [])) ∧
    (SortStable [cexRec 1, cexRec 0] (newSortFn true [])).Pairwise
      (fun a b => newSortFn true [] a b ≤ 0) := by
  obtain ⟨hperm, hstab, hsort⟩ := sortStable_sorted_stable
  refine ⟨hperm _ _, ?_, ?_⟩
  · exact hstab [cexRec 1, cexRec 0] (newSortFn true []) (cexRec 1) (cexRec 0)
      rfl (List.Sublist.refl _)
  · exact hsort [cexRec 1, cexRec 0] (newSortFn true [])
      (fun x y => Or.inl (le_refl 0)) (fun x y z _ _ => le_refl 0)

/-- C4: when the two (non-null) values at the first distinguishing sort
field have different type identities, the comparator returns the byte
comparison of the string forms of the two types — an expression that
does not depend on the payload bytes (no decoding), so the ordering is
the same for every pair of records carrying those types. -/
theorem sort_hetero_type_compare
    (nm : Bool) (pre post : List Resolver) (f : Resolver) (ra rb : Record)
    (ta tb : ZType) (ba bb : List Nat)
    (hties : ∀ g ∈ pre, fieldTie g ra rb)
    (hta : (f ra).type = some ta) (hba : (f ra).bytes = some ba)
    (htb : (f rb).type = some tb) (hbb : (f rb).bytes = some bb)
    (hid : typeId ta ≠ typeId tb) :
    newSortFn nm (pre ++ f :: post) ra rb =
      strCompare (typeString ta) (typeString tb) := by
  show recordCompare nm (pre ++ f :: post) ra rb = _
  rw [rc_ties_append hties, rc_step_present hta hba htb hbb, if_pos hid]

/-- C4 witness: an int64 value against a string value; the comparison is
the byte order of the type names ("int64" before "string"). -/
theorem sort_hetero_type_compare_witness :
    newSortFn true [fieldRead "x"]
      [("x", ⟨some .int64, some [1]⟩)] [("x", ⟨some .string, some [97]⟩)] =
      strCompare (typeString .int64) (typeString .string) ∧
    strCompare (typeString .int64) (typeString .string) = -1 := by
  constructor
  · have h := sort_hetero_type_compare true [] [] (fieldRead "x")
      [("x", ⟨some .int64, some [1]⟩)] [("x", ⟨some .string, some [97]⟩)]
      .int64 .string [1] [97] (by intro g hg; cases hg)
      rfl rfl rfl rfl (by decide)
    simpa using h
  · decide

/-- C2 counterexample: a malformed payload is NOT ordered like a null
value.  With `nullsMax = true` a null left-hand value compares greater
(+1), but a malformed left-hand bool payload (empty bytes, present) of
the same type compares less (-1): the decode failure returns -1
regardless of the nulls policy. -/
theorem sort_malformed_not_null_cex :
    newSortFn true [fieldRead "x"]
      [("x", ⟨some .bool, some []⟩)] [("x", ⟨some .bool, some [1]⟩)] = -1 ∧
    newSortFn true [fieldRead "x"]
      [("x", ⟨some .bool, none⟩)] [("x", ⟨some .bool, some [1]⟩)] = 1 := by
  exact ⟨by decide, by decide⟩

/-- C2 amended: at the first distinguishing sort field, when both values
are present with the same (scalar, decoded) type, a malformed payload on
the left makes the comparator return -1 and a malformed payload on the
right (with a well-formed left) makes it return 1, in both cases
independently of `nullsMax`; this coincides with the null ordering only
when `nullsMax = false`. -/
theorem sort_malformed_sides
    (nm : Bool) (pre post : List Resolver) (f : Resolver) (ra rb : Record)
    (t : ZType) (ba bb : List Nat)
    (hties : ∀ g ∈ pre, fieldTie g ra rb)
    (hta : (f ra).type = some t) (hba : (f ra).bytes = some ba)
    (htb : (f rb).type = some t) (hbb : (f rb).bytes = some bb)
    (hs : isScalarDecoded t = true) :
    (scalarDecodeFails t ba = true →
      newSortFn nm (pre ++ f :: post) ra rb = -1) ∧
    (scalarDecodeFails t ba = false → scalarDecodeFails t bb = true →
      newSortFn nm (pre ++ f :: post) ra rb = 1) := by
  constructor
  · intro hfa
    show recordCompare nm (pre ++ f :: post) ra rb = -1
    rw [rc_ties_append hties, rc_step_present hta hba htb hbb]
    rw [lookupSorter_fail_left hs hfa]
    simp
  · intro hoka hfb
    show recordCompare nm (pre ++ f :: post) ra rb = 1
    rw [rc_ties_append hties, rc_step_present hta hba htb hbb]
    rw [lookupSorter_fail_right hs hoka hfb]
    simp

/-- C2 witness: the amended behavior at concrete malformed bool
payloads, on both sides, with both nulls policies. -/
theorem sort_malformed_sides_witness :
    newSortFn true [fieldRead "x"]
      [("x", ⟨some .bool, some []⟩)] [("x", ⟨some .bool, some [1]⟩)] = -1 ∧
    newSortFn false [fieldRead "x"]
      [("x", ⟨some .bool, some [1]⟩)] [("x", ⟨some .bool, some []⟩)] = 1 := by
  constructor
  · have h := (sort_malformed_sides true [] [] (fieldRead "x")
      [("x", ⟨some .bool, some []⟩)] [("x", ⟨some .bool, some [1]⟩)]
      .bool [] [1] (by intro g hg; cases hg) rfl rfl rfl rfl (by decide)).1
      (by decide)
    simpa using h
  · have h := (sort_malformed_sides false [] [] (fieldRead "x")
      [("x", ⟨some .bool, some [1]⟩)] [("x", ⟨some .bool, some []⟩)]
      .bool [1] [] (by intro g hg; cases hg) rfl rfl rfl rfl (by decide)).2
      (by decide) (by decide)
    simpa using h

/-- C5: for well-formed IP payloads the sorter compares the 16-byte
canonical forms byte-wise; in particular a 4-byte IPv4 payload compares
equal to the same address in 16-byte IPv4-in-IPv6 form. -/
theorem sort_ip_canonical :
    (∀ va vb ia ib : List Nat, decodeIP va = .ok ia → decodeIP vb = .ok ib →
      lookupSorter .ip va vb = byteCompare (ipTo16 ia) (ipTo16 ib)) ∧
    (∀ a b c d : Nat,
      lookupSorter .ip [a, b, c, d]
        ([0, 0, 0, 0, 0, 0, 0, 0, 0, 0, 255, 255] ++ [a, b, c, d]) = 0) := by
  constructor
  · intro va vb ia ib hia hib
    simp [lookupSorter, hia, hib]
  · intro a b c d
    have h4 : decodeIP [a, b, c, d] = .ok [a, b, c, d] := by
      simp [decodeIP]
    have h16 : decodeIP ([0, 0, 0, 0, 0, 0, 0, 0, 0, 0, 255, 255] ++
        [a, b, c, d]) = .ok ([0, 0, 0, 0, 0, 0, 0, 0, 0, 0, 255, 255] ++
        [a, b, c, d]) := by
      simp [decodeIP]
    simp only [lookupSorter, h4, h16]
    have e4 : ipTo16 [a, b, c, d] =
        [0, 0, 0, 0, 0, 0, 0, 0, 0, 0, 255, 255] ++ [a, b, c, d] := by
      simp [ipTo16]
    have e16 : ipTo16 ([0, 0, 0, 0, 0, 0, 0, 0, 0, 0, 255, 255] ++
        [a, b, c, d]) = [0, 0, 0, 0, 0, 0, 0, 0, 0, 0, 255, 255] ++
        [a, b, c, d] := by
      simp [ipTo16]
    rw [e4, e16]
    exact byteCompare_refl _

/-- C5 witness: the IP comparison at the concrete address 10.0.0.1 in
4-byte and 16-byte encodings. -/
theorem sort_ip_canonical_witness :
    lookupSorter .ip [10, 0, 0, 1]
      [0, 0, 0, 0, 0, 0, 0, 0, 0, 0, 255, 255, 10, 0, 0, 1] = 0 ∧
    lookupSorter .ip [10, 0, 0, 1] [10, 0, 0, 2] =
      byteCompare (ipTo16 [10, 0, 0, 1]) (ipTo16 [10, 0, 0, 2]) := by
  constructor
  · have h := sort_ip_canonical.2 10 0 0 1
    simpa using h
  · exact sort_ip_canonical.1 [10, 0, 0, 1] [10, 0, 0, 2]
      [10, 0, 0, 1] [10, 0, 0, 2] rfl rfl

/-- C8 counterexample: the comparator is not reflexive on records with
malformed sort-key payloads: a bool value with a present but empty byte
payload makes the comparator return -1 when a record is compared with
itself (the left decode failure wins before the right one is looked
at). -/
theorem sort_not_reflexive_cex :
    newSortFn true [fieldRead "x"]
      [("x", ⟨some .bool, some []⟩)] [("x", ⟨some .bool, some []⟩)] = -1 := by
  decide

/-- C8 amended: the comparator is reflexive on every record whose
sort-key values are null or carry well-formed payloads for their types
(decoders succeed; container elements parse, are non-containers, and are
recursively well-formed), for any fields and either `nullsMax`
setting. -/
theorem sort_reflexive_wellformed :
    ∀ (nm : Bool) (fields : List Resolver) (r : Record),
      (∀ f ∈ fields, valueWF (f r) = true) →
      newSortFn nm fields r r = 0 := by
  intro nm fields
  induction fields with
  | nil => intro r _; rfl
  | cons f rest ih =>
    intro r h
    have hf : valueWF (f r) = true := h f (List.mem_cons_self f rest)
    have ht : ∀ g ∈ rest, valueWF (g r) = true :=
      fun g hg => h g (List.mem_cons_of_mem f hg)
    show recordCompare nm (f :: rest) r r = 0
    cases hn : isNull (f r) with
    | true => rw [rc_step_bothNull hn hn]; exact ih r ht
    | false =>
      obtain ⟨t, b, hT, hB⟩ := isNull_false_elim hn
      have hwf : wellFormed t b = true := by
        simp only [valueWF, hT, hB] at hf
        exact hf
      rw [rc_step_present hT hB hT hB]
      rw [if_neg (by simp)]
      rw [if_neg (by simp [lookupSorter_refl t b hwf])]
      exact ih r ht

/-- C8 witness: reflexivity at a concrete record with well-formed int64
and string sort keys and a null key. -/
theorem sort_reflexive_wellformed_witness :
    newSortFn true [fieldRead "x", fieldRead "y", fieldRead "z"]
      [("x", ⟨some .int64, some [5]⟩), ("y", ⟨some .string, some [97]⟩)]
      [("x", ⟨some .int64, some [5]⟩), ("y", ⟨some .string, some [97]⟩)] =
      0 := by
  exact sort_reflexive_wellformed true
    [fieldRead "x", fieldRead "y", fieldRead "z"]
    [("x", ⟨some .int64, some [5]⟩), ("y", ⟨some .string, some [97]⟩)]
    (by decide)

/-- C6: with stop-on-error set, the first reader error (open errors in
input order first, since the open phase precedes the read phase, then
read errors) fails the whole query with that error, and with no error
the query succeeds; without stop-on-error the query always succeeds,
each failing path or reader contributes one warning on the side channel,
and every successfully opened reader's pre-error records are delivered
(readers are dropped only from their first error onward). -/
theorem ingest_reader_errors :
    (∀ inputs e, specFirstError inputs = some e →
      ingestLogsModel true inputs = .error e) ∧
    (∀ inputs, specFirstError inputs = none →
      ingestLogsModel true inputs = .ok (goodRecords inputs, [])) ∧
    (∀ inputs, ingestLogsModel false inputs =
      .ok (goodRecords inputs, openWarnings inputs ++ readWarnings inputs)) ∧
    (∀ inputs p evs, (p, Except.ok evs) ∈ inputs →
      List.Sublist (okRecords evs) (goodRecords inputs)) := by
  refine ⟨?_, ?_, ?_, ?_⟩
  · intro inputs e h
    unfold specFirstError at h
    cases ho : firstOpenError inputs with
    | some e0 =>
      rw [ho] at h
      cases h
      unfold ingestLogsModel
      rw [openReaders_stop_err ho]
    | none =>
      rw [ho] at h
      dsimp only at h
      unfold ingestLogsModel
      rw [openReaders_stop_ok ho]
      dsimp only
      rw [if_pos rfl, combinerStrict_eq inputs, h]
  · intro inputs h
    unfold specFirstError at h
    cases ho : firstOpenError inputs with
    | some e0 => rw [ho] at h; cases h
    | none =>
      rw [ho] at h
      dsimp only at h
      unfold ingestLogsModel
      rw [openReaders_stop_ok ho]
      dsimp only
      rw [if_pos rfl, combinerStrict_eq inputs, h]
  · intro inputs
    unfold ingestLogsModel
    rw [openReaders_noStop inputs]
    simp [combinerWarn_eq inputs]
  · intro inputs p evs hm
    exact okRecords_sublist_goodRecords hm

/-- C6 witness: a concrete run with one mid-stream reader failure, one
open failure and one clean reader.  Stopping on error fails with the
open error (the open phase runs first); continuing delivers the clean
records with both warnings. -/
theorem ingest_reader_errors_witness :
    ingestLogsModel true
      [("a", .ok [.ok (cexRec 1), .error "boom"]), ("b", .error "nope"),
       ("c", .ok [.ok (cexRec 3)])] = .error "nope" ∧
    ingestLogsModel false
      [("a", .ok [.ok (cexRec 1), .error "boom"]), ("b", .error "nope"),
       ("c", .ok [.ok (cexRec 3)])] =
      .ok ([cexRec 1, cexRec 3], ["b: nope", "boom"]) ∧
    List.Sublist (okRecords [.ok (cexRec 3)])
      (goodRecords [("a", .ok [.ok (cexRec 1), .error "boom"]),
        ("b", .error "nope"), ("c", .ok [.ok (cexRec 3)])]) := by
  obtain ⟨h1, _, h3, h4⟩ := ingest_reader_errors
  refine ⟨?_, ?_, ?_⟩
  · exact h1 _ "nope" rfl
  · rw [h3]
    rfl
  · exact h4 _ "c" [.ok (cexRec 3)]
      (List.mem_cons_of_mem _ (List.mem_cons_of_mem _
        (List.mem_cons_self _ _)))

/-- C7: for every `Array` batch, any sequence of `Ref`/`Unref` calls
leaves every observable unchanged: `Length`, `Records`, `Index k` for
every `k`, and `Span` are identical before and after the calls. -/
theorem array_ref_unref_pure (ops : List RefOp) (a : ZsonArray) :
    (applyRefOps ops a).Length = a.Length ∧
    (applyRefOps ops a).Records = a.Records ∧
    (∀ k : Int, (applyRefOps ops a).Index k = a.Index k) ∧
    (applyRefOps ops a).Span = a.Span := by
  rw [applyRefOps_eq]
  exact ⟨rfl, rfl, fun _ => rfl, rfl⟩

/-- C9 counterexample: `Array.Index` does not tolerate every integer
argument: on a one-record array, `Index (-1)` passes the `k < len`
guard and hits Go's negative-index slice panic (modelled as
`.error ()`), refuting "never panics for any integer k". -/
theorem array_index_negative_cex :
    ZsonArray.Index (ZsonArray.NewArray [([] : Record)] ⟨0, 0⟩) (-1) =
      .error () := rfl

/-- C9 amended: `Array.Index k` returns the record at position `k` when
`0 ≤ k < Length`, returns nil when `k ≥ Length`, and panics (Go
negative-index slice access) when `k < 0`. -/
theorem array_index_spec (a : ZsonArray) (k : Int) :
    (0 ≤ k → k < (a.Length : Int) →
      a.Index k = .ok (a.records.get? k.toNat)) ∧
    ((a.Length : Int) ≤ k → a.Index k = .ok none) ∧
    (k < 0 → a.Index k = .error ()) := by
  refine ⟨?_, ?_, ?_⟩
  · intro h0 hk
    have hk' : k < (a.records.length : Int) := hk
    have hlt : k.toNat < a.records.length := by omega
    unfold ZsonArray.Index
    rw [dif_pos hk', dif_pos h0, List.get?_eq_get hlt]
  · intro hk
    have hk' : ¬ k < (a.records.length : Int) := by
      have : (a.Length : Int) = (a.records.length : Int) := rfl
      omega
    unfold ZsonArray.Index
    rw [dif_neg hk']
  · intro hneg
    have hk' : k < (a.records.length : Int) := by omega
    unfold ZsonArray.Index
    rw [dif_pos hk', dif_neg (by omega : ¬ (0 : Int) ≤ k)]

/-- C9 witness: the amended spec applied at a concrete array and
indices. -/
theorem array_index_spec_witness :
    ZsonArray.Index (ZsonArray.NewArray [([] : Record)] ⟨0, 0⟩) 0 =
      .ok (some ([] : Record)) ∧
    ZsonArray.Index (ZsonArray.NewArray [([] : Record)] ⟨0, 0⟩) 3 = .ok none ∧
    ZsonArray.Index (ZsonArray.NewArray [([] : Record)] ⟨0, 0⟩) (-2) =
      .error () := by
  refine ⟨?_, ?_, ?_⟩
  · have h := (array_index_spec (ZsonArray.NewArray [([] : Record)] ⟨0, 0⟩) 0).1
      (by decide) (by decide)
    simpa using h
  · exact (array_index_spec (ZsonArray.NewArray [([] : Record)] ⟨0, 0⟩) 3).2.1
      (by decide)
  · exact (array_index_spec (ZsonArray.NewArray [([] : Record)] ⟨0, 0⟩) (-2)).2.2
      (by decide)

/-- C10: `NewUint64 "Min"` starts at `2^64 - 1` (the maximum uint64) and
after any finite sequence of updates its state is the minimum of the
supplied uint64 values (it is a lower bound of all of them, and is one
of them when the sequence is nonempty); `NewUint64` returns nil for any
op outside Sum/Min/Max. -/
theorem streamfn_min_spec :
    (∀ op : String, op ≠ "Sum" → op ≠ "Min" → op ≠ "Max" →
      NewUint64 op = none) ∧
    (∃ f, NewUint64 "Min" = some f ∧
      runUpdates f [] = 2 ^ 64 - 1 ∧
      (∀ (vs : List Nat), ∀ v ∈ vs, runUpdates f vs ≤ v) ∧
      (∀ vs : List Nat, vs ≠ [] → (∀ v ∈ vs, v < 2 ^ 64) →
        runUpdates f vs ∈ vs)) := by
  constructor
  · intro op h1 h2 h3
    unfold NewUint64
    rw [if_neg h1, if_neg h2, if_neg h3]
  · refine ⟨{ State := 2 ^ 64 - 1, Update := minUpd }, ?_, rfl, ?_, ?_⟩
    · unfold NewUint64 minUpd
      rfl
    · intro vs v hv
      exact minFold_le_mem vs _ v hv
    · intro vs hne hbound
      rcases minFold_mem_or vs (2 ^ 64 - 1) with h | h
      · cases vs with
        | nil => cases hne rfl
        | cons v0 tl =>
          have hle : (v0 :: tl).foldl minUpd (2 ^ 64 - 1) ≤ v0 :=
            minFold_le_mem _ _ _ (List.mem_cons_self v0 tl)
          have hv0 : v0 < 2 ^ 64 := hbound v0 (List.mem_cons_self v0 tl)
          have hv0' : v0 = 2 ^ 64 - 1 := by
            rw [h] at hle
            omega
          have : runUpdates { State := 2 ^ 64 - 1, Update := minUpd }
              (v0 :: tl) = v0 := by
            rw [runUpdates, h, hv0']
          rw [this]
          exact List.mem_cons_self v0 tl
      · exact h

/-- C10 witness: the theorem applied at op "Avg" and at the concrete
update sequence `[5, 3, 9]`. -/
theorem streamfn_min_spec_witness :
    NewUint64 "Avg" = none ∧
    ∃ f, NewUint64 "Min" = some f ∧ runUpdates f [5, 3, 9] ≤ 3 ∧
      runUpdates f [5, 3, 9] ∈ [5, 3, 9] := by
  obtain ⟨h1, f, hf, _, hle, hmem⟩ := streamfn_min_spec
  refine ⟨h1 "Avg" (by decide) (by decide) (by decide), f, hf, ?_, ?_⟩
  · exact hle [5, 3, 9] 3 (by decide)
  · exact hmem [5, 3, 9] (by decide) (by decide)

end ZQ
